import Mathlib

/-!
Shallow embedding of the Media Tree Manager (src/App.py).

Python dicts preserve insertion order, so both the `ad_sets` mapping and each
ad set's `ads` mapping are modelled as insertion-ordered association lists
`List (String × _)`.  Python's in-place mutation is modelled by explicit state
passing: every mutating manager operation returns the document state after the
call; an operation that raises carries the in-memory document as mutated up to
the raise point.  `save_metadata` (persistence) is invoked by the source only
on the success paths, which the embedding records by returning no error.
Filesystem contents are modelled as an explicit list of existing paths.
-/

/-! ## Python string primitives -/

/-- leadMatch sub l: does the character list l start with sub? -/
def leadMatch : List Char → List Char → Bool
  | [], _ => true
  | _ :: _, [] => false
  | c :: cs, d :: ds => c = d && leadMatch cs ds

/-- subMatch sub l: does sub occur contiguously inside l?
This is Python's `sub in l` substring test; the empty list occurs in every list. -/
def subMatch (sub : List Char) : List Char → Bool
  | [] => leadMatch sub []
  | c :: rest => leadMatch sub (c :: rest) || subMatch sub rest

/-- pyIn needle hay: Python's `needle in hay` substring containment on strings. -/
def pyIn (needle hay : String) : Bool := subMatch needle.toList hay.toList

/-- pyLower: Python `str.lower()` (ASCII case folding, per-character). -/
def pyLower (s : String) : String := String.mk (s.toList.map Char.toLower)

/-- isPySpace: the ASCII whitespace characters removed by Python `str.strip()`. -/
def isPySpace (c : Char) : Bool :=
  c = ' ' || c = '\t' || c = '\n' || c = '\r' || c = Char.ofNat 11 || c = Char.ofNat 12

/-- pyStrip: Python `str.strip()` — drop leading and trailing whitespace. -/
def pyStrip (s : String) : String :=
  String.mk (((s.toList.dropWhile isPySpace).reverse.dropWhile isPySpace).reverse)

/-- pySplitChar sep l: Python `str.split(sep)` on character lists for a
one-character separator; the result is always non-empty and splitting the
empty string yields one empty piece. -/
def pySplitChar (sep : Char) : List Char → List (List Char)
  | [] => [[]]
  | c :: rest =>
    match pySplitChar sep rest with
    | [] => [[]]
    | h :: t => if c = sep then [] :: h :: t else (c :: h) :: t

/-- pySplit sep s: Python `s.split(sep)` returning strings. -/
def pySplit (sep : Char) (s : String) : List String :=
  (pySplitChar sep s.toList).map String.mk

/-- pyJoin sep parts: Python `sep.join(parts)`. -/
def pyJoin (sep : String) : List String → String
  | [] => ""
  | [p] => p
  | p :: rest => p ++ sep ++ pyJoin sep rest

/-- pathName p: the final component of a path, i.e. `Path(p).name` for paths
without trailing separators (the only shape the program produces). -/
def pathName (p : String) : String :=
  String.mk ((pySplitChar '/' p.toList).getLastD [])

/-! ## Insertion-ordered dictionaries (Python dict semantics) -/

/-- dictGet l k: Python `l[k]` lookup returning the value at the first
occurrence of key k, if any. -/
def dictGet : List (String × α) → String → Option α
  | [], _ => none
  | (k', v) :: rest, k => if k' = k then some v else dictGet rest k

/-- dictSet l k v: Python `l[k] = v` — replace the value at the first
occurrence of k in place, else append the new binding at the end. -/
def dictSet : List (String × α) → String → α → List (String × α)
  | [], k, v => [(k, v)]
  | (k', v') :: rest, k, v =>
    if k' = k then (k, v) :: rest else (k', v') :: dictSet rest k v

/-- dictRemove l k: Python `del l[k]` / `l.pop(k)` — remove the first
occurrence of key k (a no-op if absent; the callers below check first). -/
def dictRemove : List (String × α) → String → List (String × α)
  | [], _ => []
  | (k', v') :: rest, k =>
    if k' = k then rest else (k', v') :: dictRemove rest k

/-- keysOf l: the key list of an association list. -/
def keysOf (l : List (String × α)) : List String := l.map Prod.fst

/-! ## Data model -/

/-- Campaign record: the singleton `metadata['campaign']` object. -/
structure Campaign where
  name : String
  objective : String
  created_at : String
deriving Repr, DecidableEq

/-- Ad record, with the fields the source stores for every ad.  A missing
`schedule_date` is `none`; an empty `file_path` means no backing file. -/
structure Ad where
  id : String
  name : String
  description : String
  tags : List String
  url : String
  schedule_date : Option String
  created_at : String
  file_path : String
  mime_type : String
deriving Repr, DecidableEq

/-- AdSet record: `metadata['ad_sets'][name]`, with its insertion-ordered
`ads` mapping keyed by ad id. -/
structure AdSet where
  name : String
  description : String
  created_at : String
  ads : List (String × Ad)
deriving Repr, DecidableEq

/-- Doc: the whole persisted metadata document. -/
structure Doc where
  campaign : Campaign
  ad_sets : List (String × AdSet)
deriving Repr, DecidableEq

/-- PyErr: the error outcomes of the metadata operations.  `keyError` is the
Python KeyError raised by indexing/`pop` on a missing key (the spec's
NotFoundError); `valueError` is the explicit ValueError of `create_ad_set`;
`notEmptyError` is the delete-set rejection branch of the UI handler. -/
inductive PyErr where
  | keyError (key : String)
  | valueError (msg : String)
  | notEmptyError
deriving Repr, DecidableEq

/-! ## File classifier (`is_allowed_file`, `get_file_category`) -/

/-- ALLOWED_EXTENSIONS['images'] from the source configuration. -/
def allowedImages : List String := ["png", "jpg", "jpeg", "gif", "bmp", "webp", "svg"]

/-- ALLOWED_EXTENSIONS['videos'] from the source configuration. -/
def allowedVideos : List String := ["mp4", "mov", "avi", "mkv", "webm", "m4v", "flv"]

/-- ALLOWED_EXTENSIONS['audio'] from the source configuration. -/
def allowedAudio : List String := ["mp3", "wav", "ogg", "aac", "m4a"]

/-- ALL_ALLOWED = sum(ALLOWED_EXTENSIONS.values(), []). -/
def allAllowed : List String := allowedImages ++ allowedVideos ++ allowedAudio

/-- extOf filename: `filename.split('.')[-1].lower()`, the extension string the
classifier extracts (the whole filename when no dot occurs). -/
def extOf (filename : String) : String :=
  pyLower ((pySplit '.' filename).getLastD "")

/-- is_allowed_file: membership of the extracted extension in ALL_ALLOWED. -/
def is_allowed_file (filename : String) : Bool :=
  allAllowed.contains (extOf filename)

/-- get_file_category: first category of ALLOWED_EXTENSIONS (in insertion
order images, videos, audio) whose list contains the extension, else
'unknown'. -/
def get_file_category (filename : String) : String :=
  let extension := extOf filename
  if allowedImages.contains extension then "images"
  else if allowedVideos.contains extension then "videos"
  else if allowedAudio.contains extension then "audio"
  else "unknown"

/-! ## Metadata operations -/

/-- create_ad_set: validates the stripped name (non-empty, not already a key)
raising ValueError otherwise, then inserts a fresh ad set and saves.
`now` stands for `datetime.datetime.now().isoformat()`. -/
def create_ad_set (doc : Doc) (name description now : String) : Doc × Option PyErr :=
  let name := pyStrip name
  if name = "" then (doc, some (.valueError "Ad Set name is required"))
  else if (dictGet doc.ad_sets name).isSome then
    (doc, some (.valueError "Ad Set with this name already exists"))
  else
    ({ doc with ad_sets := dictSet doc.ad_sets name ⟨name, description, now, []⟩ }, none)

/-- create_ad: stamps `id` and `created_at` into the given ad data and stores
it under the generated id in the named ad set, then saves.  The id is
`uuid.uuid4().hex[:8]` in the source — a random draw with no collision check —
modelled here as the explicit parameter `ad_id`.  Indexing a missing ad set
name raises KeyError and leaves the document unchanged. -/
def create_ad (doc : Doc) (ad_set_name ad_id now : String) (ad_data : Ad) : Doc × Option PyErr :=
  let ad := { ad_data with id := ad_id, created_at := now }
  match dictGet doc.ad_sets ad_set_name with
  | none => (doc, some (.keyError ad_set_name))
  | some st =>
    let st' := { st with ads := dictSet st.ads ad_id ad }
    ({ doc with ad_sets := dictSet doc.ad_sets ad_set_name st' }, none)

/-- AdUpdates: the partial-field update record the edit form passes to
`update_ad` (a Python dict with these keys); `none` fields are absent. -/
structure AdUpdates where
  name : Option String
  description : Option String
  url : Option String
  tags : Option (List String)
  schedule_date : Option (Option String)
deriving Repr, DecidableEq

/-- applyUpdates: Python `dict.update` for the keys an AdUpdates may carry. -/
def applyUpdates (ad : Ad) (u : AdUpdates) : Ad :=
  { ad with
    name := u.name.getD ad.name
    description := u.description.getD ad.description
    url := u.url.getD ad.url
    tags := u.tags.getD ad.tags
    schedule_date := u.schedule_date.getD ad.schedule_date }

/-- update_ad: merges the updates into the named ad and saves; silently does
nothing when the ad set or ad id is absent. -/
def update_ad (doc : Doc) (ad_set_name ad_id : String) (updates : AdUpdates) : Doc :=
  match dictGet doc.ad_sets ad_set_name with
  | none => doc
  | some st =>
    match dictGet st.ads ad_id with
    | none => doc
    | some ad =>
      let st' := { st with ads := dictSet st.ads ad_id (applyUpdates ad updates) }
      { doc with ad_sets := dictSet doc.ad_sets ad_set_name st' }

/-- delete_ad: returns unchanged when the ad set or ad id is absent; otherwise
removes the ad and saves.  The optional `delete_file` cascade in the source
touches only the on-disk media file and thumbnail (failures there are caught
and logged), never the metadata document, so it is not modelled. -/
def delete_ad (doc : Doc) (ad_set_name ad_id : String) : Doc :=
  match dictGet doc.ad_sets ad_set_name with
  | none => doc
  | some st =>
    match dictGet st.ads ad_id with
    | none => doc
    | some _ =>
      let st' := { st with ads := dictRemove st.ads ad_id }
      { doc with ad_sets := dictSet doc.ad_sets ad_set_name st' }

/-- move_ad: returns immediately when source and destination coincide;
otherwise pops the ad from the source set (KeyError when the source set or the
id is missing, document unchanged) and then inserts it into the destination
set (KeyError when that set is missing — note the pop has already happened, so
the in-memory document has lost the ad at that point), then saves. -/
def move_ad (doc : Doc) (from_set to_set ad_id : String) : Doc × Option PyErr :=
  if from_set = to_set then (doc, none)
  else
    match dictGet doc.ad_sets from_set with
    | none => (doc, some (.keyError from_set))
    | some fs =>
      match dictGet fs.ads ad_id with
      | none => (doc, some (.keyError ad_id))
      | some ad =>
        let fs' := { fs with ads := dictRemove fs.ads ad_id }
        let doc' := { doc with ad_sets := dictSet doc.ad_sets from_set fs' }
        match dictGet doc'.ad_sets to_set with
        | none => (doc', some (.keyError to_set))
        | some ts =>
          let ts' := { ts with ads := dictSet ts.ads ad_id ad }
          ({ doc' with ad_sets := dictSet doc'.ad_sets to_set ts' }, none)

/-- searchableText ad: `' '.join([name, description, ' '.join(tags)]).lower()`. -/
def searchableText (ad : Ad) : String :=
  pyLower (pyJoin " " [ad.name, ad.description, pyJoin " " ad.tags])

/-- search_ads: every (ad set name, ad id, ad) triple, in document traversal
order, whose searchable text contains the lowered query as a substring. -/
def search_ads (doc : Doc) (query : String) : List (String × String × Ad) :=
  doc.ad_sets.flatMap fun p =>
    p.2.ads.filterMap fun q =>
      if pyIn (pyLower query) (searchableText q.2) then some (p.1, q.1, q.2) else none

/-- delete_ad_set: the delete-set handler of `main` (an inline block, not a
manager method): when the set's ads mapping is empty it deletes the set and
saves, otherwise it rejects with an error message and changes nothing —
modelled as `notEmptyError`.  Deleting an absent name would raise KeyError. -/
def delete_ad_set (doc : Doc) (name : String) : Doc × Option PyErr :=
  match dictGet doc.ad_sets name with
  | none => (doc, some (.keyError name))
  | some st =>
    if st.ads.length = 0 then
      ({ doc with ad_sets := dictRemove doc.ad_sets name }, none)
    else
      (doc, some .notEmptyError)

/-- get_default_metadata: the default seeded document with demo data; `now`
stands for the `datetime.datetime.now().isoformat()` stamps. -/
def get_default_metadata (now : String) : Doc :=
  { campaign :=
      { name := "Summer Product Launch"
        objective := "Increase brand awareness and drive sales for our new summer collection"
        created_at := now }
    ad_sets :=
      [ ("Social Media Ads",
         { name := "Social Media Ads"
           description := "Ads for Facebook, Instagram, and Twitter"
           created_at := now
           ads :=
             [ ("demo001",
                { id := "demo001"
                  name := "Instagram Story Template"
                  description := "Bright and engaging story template for product showcase"
                  tags := ["instagram", "story", "template", "summer"]
                  url := "https://example.com/campaign1"
                  schedule_date := none
                  created_at := now
                  file_path := ""
                  mime_type := "image/jpeg" })
             , ("demo002",
                { id := "demo002"
                  name := "Product Demo Video"
                  description := "Short video demonstrating key product features"
                  tags := ["video", "demo", "product", "features"]
                  url := "https://example.com/video"
                  schedule_date := none
                  created_at := now
                  file_path := ""
                  mime_type := "video/mp4" }) ] })
      , ("Google Ads",
         { name := "Google Ads"
           description := "Search and display ads for Google Ads platform"
           created_at := now
           ads :=
             [ ("demo003",
                { id := "demo003"
                  name := "Search Ad Creative"
                  description := "Text and image combination for Google search results"
                  tags := ["google", "search", "text-ad"]
                  url := "https://example.com/landing"
                  schedule_date := none
                  created_at := now
                  file_path := ""
                  mime_type := "image/png" }) ] }) ] }

/-! ## Archive export (`export_campaign_zip`) -/

/-- export_zip_entries existingFiles doc: the entry names written into the
archive, in order — the metadata snapshot first, then, for every ad in
traversal order whose `file_path` is non-empty and exists on disk (membership
in `existingFiles`), one media entry `media/<ad_set_name>/<basename>`.  The
document itself is only read. -/
def export_zip_entries (existingFiles : List String) (doc : Doc) : List String :=
  "campaign_metadata.json" ::
    (doc.ad_sets.flatMap fun p =>
      p.2.ads.filterMap fun q =>
        if q.2.file_path ≠ "" ∧ q.2.file_path ∈ existingFiles then
          some ("media/" ++ p.1 ++ "/" ++ pathName q.2.file_path)
        else none)

/-! ## Tabular (CSV) export and import -/

/-- Row: one record of the tabular export, with the columns the export builds
for every (campaign, ad set, ad) triple. -/
structure Row where
  campaign_name : String
  campaign_objective : String
  ad_set_name : String
  ad_set_description : String
  ad_id : String
  ad_name : String
  ad_description : String
  ad_url : String
  ad_tags : String
  schedule_date : Option String
  file_path : String
  mime_type : String
  created_at : String
  ad_set_created : String
  campaign_created : String
deriving Repr, DecidableEq

/-- rowOf: the CSV row the export constructs for one ad of one ad set;
`ad_tags` is the `'|'.join(...)` of the tag list. -/
def rowOf (camp : Campaign) (sn sdesc screated aid : String) (ad : Ad) : Row :=
  { campaign_name := camp.name
    campaign_objective := camp.objective
    ad_set_name := sn
    ad_set_description := sdesc
    ad_id := aid
    ad_name := ad.name
    ad_description := ad.description
    ad_url := ad.url
    ad_tags := pyJoin "|" ad.tags
    schedule_date := ad.schedule_date
    file_path := ad.file_path
    mime_type := ad.mime_type
    created_at := ad.created_at
    ad_set_created := screated
    campaign_created := camp.created_at }

/-- export_rows doc: the complete-campaign CSV data, one row per ad in
document traversal order. -/
def export_rows (doc : Doc) : List Row :=
  doc.ad_sets.flatMap fun p =>
    p.2.ads.map fun q => rowOf doc.campaign p.1 p.2.description p.2.created_at q.1 q.2

/-- splitTags: the import's tag parsing —
`[tag.strip() for tag in str(...).split('|') if tag.strip()]`. -/
def splitTags (s : String) : List String :=
  ((pySplit '|' s).map pyStrip).filter (fun t => t ≠ "")

/-- import_row: processing of one CSV row by the import loop — overwrite the
campaign name/objective, create the ad set when absent, then `create_ad` the
row's ad under it.  `newId` is the id `create_ad` draws for this row and `now`
the timestamp. -/
def import_row (doc : Doc) (r : Row) (newId now : String) : Doc :=
  let camp' := { doc.campaign with name := r.campaign_name, objective := r.campaign_objective }
  let doc := { doc with campaign := camp' }
  let newSet : AdSet := ⟨r.ad_set_name, r.ad_set_description, now, []⟩
  let doc :=
    if (dictGet doc.ad_sets r.ad_set_name).isSome then doc
    else { doc with ad_sets := dictSet doc.ad_sets r.ad_set_name newSet }
  let ad_data : Ad :=
    { id := ""
      name := r.ad_name
      description := r.ad_description
      tags := splitTags r.ad_tags
      url := r.ad_url
      schedule_date := r.schedule_date
      created_at := ""
      file_path := r.file_path
      mime_type := r.mime_type }
  (create_ad doc r.ad_set_name newId now ad_data).1

/-- import_rows: the CSV import row loop in merge mode, with each row paired
with the id its `create_ad` call draws. -/
def import_rows (now : String) : Doc → List (Row × String) → Doc
  | doc, [] => doc
  | doc, (r, newId) :: rest => import_rows now (import_row doc r newId now) rest

/-- freshEmptyDoc: a fresh empty document — no ad sets. -/
def freshEmptyDoc : Doc := { campaign := ⟨"", "", ""⟩, ad_sets := [] }

/-! ## Operation sequences and document invariants -/

/-- Op: one metadata-mutating operation, carrying the environment inputs the
source reads (generated ids and timestamps) as explicit data. -/
inductive Op where
  | createAdSet (name description now : String)
  | createAd (ad_set_name ad_id now : String) (data : Ad)
  | moveAd (from_set to_set ad_id : String)
  | deleteAd (ad_set_name ad_id : String)
deriving Repr, DecidableEq

/-- step doc op: the in-memory document after performing op (the state at the
raise point when the operation errors). -/
def step (doc : Doc) : Op → Doc
  | .createAdSet name description now => (create_ad_set doc name description now).1
  | .createAd s aid now data => (create_ad doc s aid now data).1
  | .moveAd f t aid => (move_ad doc f t aid).1
  | .deleteAd s aid => delete_ad doc s aid

/-- runOps doc ops: the document after a sequence of operations. -/
def runOps (doc : Doc) (ops : List Op) : Doc := ops.foldl step doc

/-- adIds doc: all ad ids (mapping keys) of the document, in traversal order. -/
def adIds (doc : Doc) : List String :=
  doc.ad_sets.flatMap fun p => keysOf p.2.ads

/-- freshIdsB doc ops: along the execution, every id handed to a `createAd` is
not already an ad id of the document at that point (the success the random
8-hex-digit draw delivers with high probability; the source never checks). -/
def freshIdsB : Doc → List Op → Bool
  | _, [] => true
  | doc, op :: rest =>
    (match op with
     | .createAd _ aid _ _ => !(adIds doc).contains aid
     | _ => true) && freshIdsB (step doc op) rest

/-- keyIdAgree doc: every ad record's `id` field equals the key it is stored
under in its ad set's ads mapping. -/
def keyIdAgree (doc : Doc) : Bool :=
  doc.ad_sets.all fun p => p.2.ads.all fun q => q.2.id == q.1

/-! ## Dictionary lemmas -/

theorem dictGet_none_iff {l : List (String × α)} {k : String} :
    dictGet l k = none ↔ ∀ p ∈ l, p.1 ≠ k := by
  induction l with
  | nil => simp [dictGet]
  | cons p rest ih =>
    obtain ⟨k', v⟩ := p
    by_cases h : k' = k <;> simp [dictGet, h, ih]

theorem dictGet_mem {l : List (String × α)} {k : String} {v : α}
    (h : dictGet l k = some v) : (k, v) ∈ l := by
  induction l with
  | nil => simp [dictGet] at h
  | cons p rest ih =>
    obtain ⟨k', v'⟩ := p
    by_cases hk : k' = k
    · subst hk
      simp [dictGet] at h
      simp [h]
    · simp [dictGet, hk] at h
      simp [ih h]

theorem dictGet_decomp {l : List (String × α)} {k : String} {v : α}
    (h : dictGet l k = some v) :
    ∃ l₁ l₂, l = l₁ ++ (k, v) :: l₂ ∧ ∀ p ∈ l₁, p.1 ≠ k := by
  induction l with
  | nil => simp [dictGet] at h
  | cons p rest ih =>
    obtain ⟨k', v'⟩ := p
    by_cases hk : k' = k
    · subst hk
      simp [dictGet] at h
      exact ⟨[], rest, by simp [h], by simp⟩
    · simp [dictGet, hk] at h
      obtain ⟨l₁, l₂, hl, hne⟩ := ih h
      exact ⟨(k', v') :: l₁, l₂, by simp [hl], by simpa [hk] using hne⟩

theorem dictGet_of_decomp {l₁ l₂ : List (String × α)} {k : String} {v : α}
    (h : ∀ p ∈ l₁, p.1 ≠ k) :
    dictGet (l₁ ++ (k, v) :: l₂) k = some v := by
  induction l₁ with
  | nil => simp [dictGet]
  | cons p rest ih =>
    obtain ⟨k', v'⟩ := p
    have hk : k' ≠ k := h (k', v') (by simp)
    simp only [List.cons_append, dictGet, if_neg hk]
    exact ih fun p hp => h p (by simp [hp])

theorem dictSet_of_decomp {l₁ l₂ : List (String × α)} {k : String} {v w : α}
    (h : ∀ p ∈ l₁, p.1 ≠ k) :
    dictSet (l₁ ++ (k, v) :: l₂) k w = l₁ ++ (k, w) :: l₂ := by
  induction l₁ with
  | nil => simp [dictSet]
  | cons p rest ih =>
    obtain ⟨k', v'⟩ := p
    have hk : k' ≠ k := h (k', v') (by simp)
    simp only [List.cons_append, dictSet, if_neg hk, List.cons.injEq, true_and]
    exact ih fun p hp => h p (by simp [hp])

theorem dictRemove_of_decomp {l₁ l₂ : List (String × α)} {k : String} {v : α}
    (h : ∀ p ∈ l₁, p.1 ≠ k) :
    dictRemove (l₁ ++ (k, v) :: l₂) k = l₁ ++ l₂ := by
  induction l₁ with
  | nil => simp [dictRemove]
  | cons p rest ih =>
    obtain ⟨k', v'⟩ := p
    have hk : k' ≠ k := h (k', v') (by simp)
    simp only [List.cons_append, dictRemove, if_neg hk, List.cons.injEq, true_and]
    exact ih fun p hp => h p (by simp [hp])

theorem dictSet_of_none {l : List (String × α)} {k : String} (v : α)
    (h : dictGet l k = none) :
    dictSet l k v = l ++ [(k, v)] := by
  induction l with
  | nil => simp [dictSet]
  | cons p rest ih =>
    obtain ⟨k', v'⟩ := p
    by_cases hk : k' = k
    · subst hk; simp [dictGet] at h
    · simp [dictGet, hk] at h
      simp [dictSet, hk, ih h]

theorem dictGet_dictSet_ne {l : List (String × α)} {k k' : String} {v : α}
    (h : k ≠ k') :
    dictGet (dictSet l k v) k' = dictGet l k' := by
  induction l with
  | nil => simp [dictSet, dictGet, h]
  | cons p rest ih =>
    obtain ⟨k₀, v₀⟩ := p
    by_cases hk : k₀ = k
    · subst hk
      simp [dictSet, dictGet, h, ih]
    · simp [dictSet, dictGet, hk, ih]

theorem mem_dictSet {l : List (String × α)} {k : String} {v : α} {p : String × α}
    (h : p ∈ dictSet l k v) : p ∈ l ∨ p = (k, v) := by
  induction l with
  | nil => simp [dictSet] at h; simp [h]
  | cons q rest ih =>
    obtain ⟨k₀, v₀⟩ := q
    by_cases hk : k₀ = k
    · subst hk
      simp [dictSet] at h
      rcases h with h | h
      · simp [h]
      · simp [h]
    · simp [dictSet, hk] at h
      rcases h with h | h
      · simp [h]
      · rcases ih h with h' | h'
        · simp [h']
        · simp [h']

theorem mem_dictRemove {l : List (String × α)} {k : String} {p : String × α}
    (h : p ∈ dictRemove l k) : p ∈ l := by
  induction l with
  | nil => simp [dictRemove] at h
  | cons q rest ih =>
    obtain ⟨k₀, v₀⟩ := q
    by_cases hk : k₀ = k
    · subst hk
      simp [dictRemove] at h
      simp [h]
    · simp [dictRemove, hk] at h
      rcases h with h | h
      · simp [h]
      · simp [ih h]

theorem dictGet_append {l₁ l₂ : List (String × α)} {k : String}
    (h : dictGet l₁ k = none) :
    dictGet (l₁ ++ l₂) k = dictGet l₂ k := by
  induction l₁ with
  | nil => simp
  | cons p rest ih =>
    obtain ⟨k', v⟩ := p
    by_cases hk : k' = k
    · subst hk; simp [dictGet] at h
    · simp [dictGet, hk] at h ⊢
      exact ih h

/-! ## Search lemmas and spec-side predicates -/

/-- allTriples doc: every (ad set name, ad id, ad) triple of the document in
traversal order. -/
def allTriples (doc : Doc) : List (String × String × Ad) :=
  doc.ad_sets.flatMap fun p => p.2.ads.map fun q => (p.1, q.1, q.2)

/-- fieldMatch q ad (spec wording of C2): q occurs case-insensitively in the
ad's name, or in its description, or in some single tag. -/
def fieldMatch (q : String) (ad : Ad) : Bool :=
  pyIn (pyLower q) (pyLower ad.name) || pyIn (pyLower q) (pyLower ad.description) ||
    ad.tags.any fun t => pyIn (pyLower q) (pyLower t)

/-- concatMatch q ad (spec wording of §4.4): q occurs case-insensitively in
the concatenation of name, description and the space-joined tags. -/
def concatMatch (q : String) (ad : Ad) : Bool :=
  pyIn (pyLower q) (pyLower (ad.name ++ " " ++ ad.description ++ " " ++ pyJoin " " ad.tags))

theorem concatMatch_eq (q : String) (ad : Ad) :
    pyIn (pyLower q) (searchableText ad) = concatMatch q ad := by
  simp [searchableText, concatMatch, pyJoin, String.append_assoc]

theorem filterMap_if {α β : Type} (p : α → Bool) (f : α → β) (l : List α) :
    (l.filterMap fun a => if p a then some (f a) else none) = (l.filter p).map f := by
  induction l with
  | nil => rfl
  | cons a t ih => by_cases h : p a <;> simp [h, ih]

theorem search_ads_eq (doc : Doc) (q : String) :
    search_ads doc q = (allTriples doc).filter fun tr => concatMatch q tr.2.2 := by
  unfold search_ads allTriples
  generalize doc.ad_sets = l
  induction l with
  | nil => rfl
  | cons p rest ih =>
    simp only [List.flatMap_cons, List.filter_append, ih]
    congr 1
    rw [filterMap_if (fun (q' : String × Ad) => pyIn (pyLower q) (searchableText q'.2))
      (fun (q' : String × Ad) => (p.1, q'.1, q'.2)), List.filter_map]
    exact congrArg (List.map fun (q' : String × Ad) => (p.1, q'.1, q'.2))
      (List.filter_congr fun q' _ => by simpa [Function.comp] using concatMatch_eq q q'.2)

theorem pyIn_empty (s : String) : pyIn "" s = true := by
  show subMatch "".toList s.toList = true
  have h0 : ("" : String).toList = [] := rfl
  rw [h0]
  cases h : s.toList <;> simp [subMatch, leadMatch]

theorem concatMatch_empty (ad : Ad) : concatMatch "" ad = true := by
  have h0 : pyLower "" = "" := rfl
  rw [concatMatch, h0, pyIn_empty]

/-! ## Concrete example data -/

/-- adCross: an ad whose name is "ab" and description "cd". -/
def adCross : Ad := ⟨"x1", "ab", "cd", [], "", none, "", "", ""⟩

/-- docCross: a document with the single ad set "S" holding adCross. -/
def docCross : Doc := ⟨⟨"C", "", ""⟩, [("S", ⟨"S", "", "", [("x1", adCross)]⟩)]⟩

/-- noUpdates: an update record carrying no fields. -/
def noUpdates : AdUpdates := ⟨none, none, none, none, none⟩

/-! ## Claim C2 (search field-wise vs concatenation) -/

/-- C2 counterexample: with ad name "ab" and description "cd", the query
"b c" matches none of name, description, or any single tag, yet `search_ads`
returns the ad — the source matches against the space-joined concatenation,
where the query straddles the name/description boundary. -/
theorem search_ads_cross_field_cex :
    search_ads docCross "b c" = [("S", "x1", adCross)] ∧
    fieldMatch "b c" adCross = false := by
  decide

/-- C2 amended: for every document and query, `search_ads` returns exactly
the (ad set name, ad id, ad) triples whose concatenation of name, description
and space-joined tags contains the query case-insensitively, in document
traversal order (ad sets in insertion order, ads within each set in insertion
order). -/
theorem search_ads_concat_spec (doc : Doc) (q : String) :
    search_ads doc q = (allTriples doc).filter fun tr => concatMatch q tr.2.2 :=
  search_ads_eq doc q

/-! ## Claim C6 (empty query) -/

/-- C6 counterexample: on the default seeded document the empty query matches
every one of the three demo ads, not none — Python's substring test accepts
the empty string everywhere. -/
theorem search_ads_empty_query_cex :
    (search_ads (get_default_metadata "t") "").length = 3 ∧
    search_ads (get_default_metadata "t") "" ≠ [] := by
  constructor
  · decide
  · decide

/-- C6 amended: for every document, searching with the empty query returns
every ad of the document (all triples in traversal order). -/
theorem search_ads_empty_query_all (doc : Doc) :
    search_ads doc "" = allTriples doc := by
  rw [search_ads_eq]
  have hall : ∀ tr : String × String × Ad, concatMatch "" tr.2.2 = true :=
    fun tr => concatMatch_empty tr.2.2
  simp [hall]

/-! ## Claim C5 (file classifier) -/

theorem contains_iff {l : List String} {a : String} : l.contains a = true ↔ a ∈ l := by
  simp

theorem img_not_vid {e : String} (h : e ∈ allowedImages) : e ∉ allowedVideos := by
  simp only [allowedImages, List.mem_cons, List.not_mem_nil, or_false] at h
  rcases h with rfl | rfl | rfl | rfl | rfl | rfl | rfl <;> decide

theorem img_not_aud {e : String} (h : e ∈ allowedImages) : e ∉ allowedAudio := by
  simp only [allowedImages, List.mem_cons, List.not_mem_nil, or_false] at h
  rcases h with rfl | rfl | rfl | rfl | rfl | rfl | rfl <;> decide

theorem vid_not_aud {e : String} (h : e ∈ allowedVideos) : e ∉ allowedAudio := by
  simp only [allowedVideos, List.mem_cons, List.not_mem_nil, or_false] at h
  rcases h with rfl | rfl | rfl | rfl | rfl | rfl | rfl <;> decide

/-- C5: classification extracts the lower-cased text after the last dot
(`extOf`); `is_allowed_file` is true exactly when that extension lies in the
fixed allow-list, `get_file_category` returns the partition (images, videos,
audio) containing the extension and "unknown" (not an error) otherwise,
including for the empty filename. -/
theorem file_classifier_spec (f : String) :
    (is_allowed_file f = true ↔ extOf f ∈ allAllowed) ∧
    (get_file_category f = "images" ↔ extOf f ∈ allowedImages) ∧
    (get_file_category f = "videos" ↔ extOf f ∈ allowedVideos) ∧
    (get_file_category f = "audio" ↔ extOf f ∈ allowedAudio) ∧
    (get_file_category f = "unknown" ↔ ¬ extOf f ∈ allAllowed) ∧
    (is_allowed_file f = true ↔ ¬ get_file_category f = "unknown") ∧
    extOf "" = "" ∧ is_allowed_file "" = false ∧ get_file_category "" = "unknown" := by
  have hiv := @img_not_vid (extOf f)
  have hia := @img_not_aud (extOf f)
  have hva := @vid_not_aud (extOf f)
  refine ⟨?_, ?_, ?_, ?_, ?_, ?_, by decide, by decide, by decide⟩ <;>
    by_cases h1 : extOf f ∈ allowedImages <;>
      by_cases h2 : extOf f ∈ allowedVideos <;>
        by_cases h3 : extOf f ∈ allowedAudio <;>
          simp_all [is_allowed_file, get_file_category, allAllowed, contains_iff]

/-! ## Claim C8 (degrade to no-op) -/

/-- C8: `move_ad` with equal source and destination is a silent no-op even on
absent names; `delete_ad` and `update_ad` on an absent ad set or absent ad id
leave the document unchanged and raise nothing. -/
theorem degrade_to_no_op (doc : Doc) (X aid s aid' : String) (u : AdUpdates)
    (h : dictGet doc.ad_sets s = none ∨
      ∃ st, dictGet doc.ad_sets s = some st ∧ dictGet st.ads aid' = none) :
    move_ad doc X X aid = (doc, none) ∧
    delete_ad doc s aid' = doc ∧
    update_ad doc s aid' u = doc := by
  refine ⟨by simp [move_ad], ?_, ?_⟩
  · rcases h with h | ⟨st, h1, h2⟩
    · simp [delete_ad, h]
    · simp [delete_ad, h1, h2]
  · rcases h with h | ⟨st, h1, h2⟩
    · simp [update_ad, h]
    · simp [update_ad, h1, h2]

/-- C8 witness: concrete instance — moving within "S" is a no-op and deleting
or updating at the absent ad set name "Nope" leaves docCross unchanged. -/
theorem degrade_to_no_op_witness :
    move_ad docCross "S" "S" "x1" = (docCross, none) ∧
    delete_ad docCross "Nope" "x1" = docCross ∧
    update_ad docCross "Nope" "x1" noUpdates = docCross :=
  degrade_to_no_op docCross "S" "x1" "Nope" "x1" noUpdates (Or.inl (by decide))

/-! ## Claim C4 (delete ad set only when empty) -/

/-- C4: for an ad set present in the document, deletion is rejected with the
not-empty error and leaves the document untouched whenever its ads mapping is
non-empty; when the mapping is empty the set is removed (and the document
saved — the embedding records a save exactly on the error-free outcome).
Deletion is never cascaded to contained ads. -/
theorem delete_ad_set_spec (doc : Doc) (name : String) (st : AdSet)
    (h : dictGet doc.ad_sets name = some st) :
    (st.ads ≠ [] → delete_ad_set doc name = (doc, some .notEmptyError)) ∧
    (st.ads = [] →
      delete_ad_set doc name = ({ doc with ad_sets := dictRemove doc.ad_sets name }, none)) := by
  constructor
  · intro hne
    have hlen : st.ads.length ≠ 0 := by simpa [List.length_eq_zero] using hne
    simp [delete_ad_set, h, hlen]
  · intro he
    simp [delete_ad_set, h, he]

/-- C4 witness: on docCross the set "S" is non-empty, so deletion is rejected
and the document is unchanged. -/
theorem delete_ad_set_spec_witness :
    (((⟨"S", "", "", [("x1", adCross)]⟩ : AdSet).ads ≠ [] →
      delete_ad_set docCross "S" = (docCross, some .notEmptyError)) ∧
    ((⟨"S", "", "", [("x1", adCross)]⟩ : AdSet).ads = [] →
      delete_ad_set docCross "S" =
        ({ docCross with ad_sets := dictRemove docCross.ad_sets "S" }, none))) ∧
    delete_ad_set docCross "S" = (docCross, some .notEmptyError) :=
  ⟨delete_ad_set_spec docCross "S" ⟨"S", "", "", [("x1", adCross)]⟩ (by decide), by decide⟩

/-! ## Claim C1 (move_ad failure behaviour) -/

/-- C1 counterexample: moving "x1" from the existing set "S" to the absent set
"B" fails (KeyError "B") yet mutates the in-memory document — the ad has
already been popped from "S" when the destination lookup raises, so the
operation is not validate-then-commit and the ad is lost from the source set. -/
theorem move_ad_missing_target_mutates :
    (move_ad docCross "S" "B" "x1").2 = some (.keyError "B") ∧
    (move_ad docCross "S" "B" "x1").1 ≠ docCross ∧
    dictGet (move_ad docCross "S" "B" "x1").1.ad_sets "S" = some ⟨"S", "", "", []⟩ := by
  decide

/-- C1 amended: with distinct source and destination, `move_ad` fails with a
KeyError and leaves the document unchanged when the source set is absent or
when the ad id is absent from the source set's ads mapping; but when both
exist and only the destination set is absent, it fails after removing the ad
from the source set, so the in-memory document is changed (nothing is
persisted, as saving happens only on success). -/
theorem move_ad_failure_cases (doc : Doc) (f t aid : String) (h : f ≠ t) :
    (dictGet doc.ad_sets f = none → move_ad doc f t aid = (doc, some (.keyError f))) ∧
    (∀ fs, dictGet doc.ad_sets f = some fs → dictGet fs.ads aid = none →
      move_ad doc f t aid = (doc, some (.keyError aid))) ∧
    (∀ fs ad, dictGet doc.ad_sets f = some fs → dictGet fs.ads aid = some ad →
      dictGet doc.ad_sets t = none →
      move_ad doc f t aid =
        ({ doc with ad_sets := dictSet doc.ad_sets f { fs with ads := dictRemove fs.ads aid } },
          some (.keyError t))) := by
  refine ⟨?_, ?_, ?_⟩
  · intro h1
    simp [move_ad, h, h1]
  · intro fs h1 h2
    simp [move_ad, h, h1, h2]
  · intro fs ad h1 h2 h3
    have ht : dictGet (dictSet doc.ad_sets f { fs with ads := dictRemove fs.ads aid }) t = none := by
      rw [dictGet_dictSet_ne h]; exact h3
    simp [move_ad, h, h1, h2, ht]

/-- C1 witness: concrete instance of the three failure cases on docCross with
source "S" and absent destination "B", together with the evaluated outcome of
the destination-absent case. -/
theorem move_ad_failure_cases_witness :
    ((dictGet docCross.ad_sets "S" = none →
      move_ad docCross "S" "B" "x1" = (docCross, some (.keyError "S"))) ∧
    (∀ fs, dictGet docCross.ad_sets "S" = some fs → dictGet fs.ads "x1" = none →
      move_ad docCross "S" "B" "x1" = (docCross, some (.keyError "x1"))) ∧
    (∀ fs ad, dictGet docCross.ad_sets "S" = some fs → dictGet fs.ads "x1" = some ad →
      dictGet docCross.ad_sets "B" = none →
      move_ad docCross "S" "B" "x1" =
        ({ docCross with
            ad_sets := dictSet docCross.ad_sets "S" { fs with ads := dictRemove fs.ads "x1" } },
          some (.keyError "B")))) ∧
    (move_ad docCross "S" "B" "x1").2 = some (.keyError "B") :=
  ⟨move_ad_failure_cases docCross "S" "B" "x1" (by decide), by decide⟩

/-! ## Claim C9 (archive export entries) -/

theorem filterMap_dif {α β : Type} (p : α → Prop) [DecidablePred p] (f : α → β) (l : List α) :
    (l.filterMap fun a => if p a then some (f a) else none) =
      (l.filter fun a => decide (p a)).map f := by
  induction l with
  | nil => rfl
  | cons a t ih => by_cases h : p a <;> simp [h, ih]

theorem flatMap_congr {α β : Type} {l : List α} {f g : α → List β}
    (h : ∀ a ∈ l, f a = g a) : l.flatMap f = l.flatMap g := by
  induction l with
  | nil => rfl
  | cons a t ih =>
    simp only [List.flatMap_cons, h a (by simp)]
    rw [ih fun a ha => h a (by simp [ha])]

theorem media_ne_meta (s t : String) :
    ("media/" ++ s ++ "/" ++ t) ≠ "campaign_metadata.json" := by
  intro h
  have h2 := congrArg String.data h
  simp only [String.data_append] at h2
  simp at h2

/-- C9: the archive consists of exactly one metadata entry
`campaign_metadata.json` plus, for each ad in traversal order whose
`file_path` is non-empty and refers to an existing file, exactly one media
entry `media/<ad_set_name>/<basename>`; ads with empty `file_path` contribute
no entry and no error, and the export reads the document without modifying it
(it is a pure function of the document). -/
theorem export_zip_entries_spec (fs : List String) (doc : Doc) :
    export_zip_entries fs doc =
      "campaign_metadata.json" ::
        (doc.ad_sets.flatMap fun p =>
          (p.2.ads.filter fun q => decide (q.2.file_path ≠ "" ∧ q.2.file_path ∈ fs)).map
            fun q => "media/" ++ p.1 ++ "/" ++ pathName q.2.file_path) ∧
    (export_zip_entries fs doc).count "campaign_metadata.json" = 1 ∧
    (export_zip_entries fs doc).length =
      1 + (doc.ad_sets.map fun p =>
        p.2.ads.countP fun q => decide (q.2.file_path ≠ "" ∧ q.2.file_path ∈ fs)).sum := by
  have h1 : export_zip_entries fs doc =
      "campaign_metadata.json" ::
        (doc.ad_sets.flatMap fun p =>
          (p.2.ads.filter fun q => decide (q.2.file_path ≠ "" ∧ q.2.file_path ∈ fs)).map
            fun q => "media/" ++ p.1 ++ "/" ++ pathName q.2.file_path) := by
    unfold export_zip_entries
    congr 1
    exact flatMap_congr fun p _ =>
      filterMap_dif (fun (q : String × Ad) => q.2.file_path ≠ "" ∧ q.2.file_path ∈ fs)
        (fun q => "media/" ++ p.1 ++ "/" ++ pathName q.2.file_path) p.2.ads
  refine ⟨h1, ?_, ?_⟩
  · rw [h1]
    have hnot : "campaign_metadata.json" ∉
        doc.ad_sets.flatMap fun p =>
          (p.2.ads.filter fun q => decide (q.2.file_path ≠ "" ∧ q.2.file_path ∈ fs)).map
            fun q => "media/" ++ p.1 ++ "/" ++ pathName q.2.file_path := by
      intro hmem
      rw [List.mem_flatMap] at hmem
      obtain ⟨p, _, hmem2⟩ := hmem
      rw [List.mem_map] at hmem2
      obtain ⟨q, _, heq⟩ := hmem2
      exact media_ne_meta _ _ heq
    rw [List.count_cons_self, List.count_eq_zero.mpr hnot]
  · rw [h1]
    simp only [List.length_cons, List.length_flatMap]
    have hmap : List.map
        (List.length ∘ fun p =>
          (p.2.ads.filter fun q => decide (q.2.file_path ≠ "" ∧ q.2.file_path ∈ fs)).map
            fun q => "media/" ++ p.1 ++ "/" ++ pathName q.2.file_path) doc.ad_sets =
        List.map (fun p =>
          p.2.ads.countP fun q => decide (q.2.file_path ≠ "" ∧ q.2.file_path ∈ fs)) doc.ad_sets :=
      List.map_congr_left fun p _ => by
        simp [Function.comp, List.length_map, List.countP_eq_length_filter]
    rw [hmap]
    omega

/-! ## Claim C10 (key and id agreement) -/

/-- adsOK l: every ad stored in any ad set of l has its `id` field equal to
its mapping key. -/
def adsOK (l : List (String × AdSet)) : Prop :=
  ∀ p ∈ l, ∀ q ∈ p.2.ads, q.2.id = q.1

theorem keyIdAgree_iff {doc : Doc} : keyIdAgree doc = true ↔ adsOK doc.ad_sets := by
  simp [keyIdAgree, adsOK, List.all_eq_true]

theorem adsOK_dictSet {l : List (String × AdSet)} {k : String} {st : AdSet}
    (hl : adsOK l) (hst : ∀ q ∈ st.ads, q.2.id = q.1) : adsOK (dictSet l k st) := by
  intro p hp
  rcases mem_dictSet hp with hp' | rfl
  · exact hl p hp'
  · exact hst

theorem adsOK_inner_dictSet {ads : List (String × Ad)} {aid : String} {ad : Ad}
    (h : ∀ q ∈ ads, q.2.id = q.1) (had : ad.id = aid) :
    ∀ q ∈ dictSet ads aid ad, q.2.id = q.1 := by
  intro q hq
  rcases mem_dictSet hq with hq' | rfl
  · exact h q hq'
  · exact had

theorem keyIdAgree_step {doc : Doc} (op : Op) (h : keyIdAgree doc = true) :
    keyIdAgree (step doc op) = true := by
  rw [keyIdAgree_iff] at h
  rw [keyIdAgree_iff]
  cases op with
  | createAdSet name desc now =>
    by_cases h1 : pyStrip name = ""
    · simpa [step, create_ad_set, h1] using h
    · by_cases h2 : (dictGet doc.ad_sets (pyStrip name)).isSome
      · simpa [step, create_ad_set, h1, h2] using h
      · have hstep : step doc (.createAdSet name desc now) =
            { doc with ad_sets := dictSet doc.ad_sets (pyStrip name) ⟨pyStrip name, desc, now, []⟩ } := by
          simp [step, create_ad_set, h1, h2]
        rw [hstep]
        exact adsOK_dictSet h (by simp)
  | createAd s aid now data =>
    cases hget : dictGet doc.ad_sets s with
    | none => simpa [step, create_ad, hget] using h
    | some st =>
      have hst : ∀ q ∈ dictSet st.ads aid { data with id := aid, created_at := now }, q.2.id = q.1 :=
        adsOK_inner_dictSet (h (s, st) (dictGet_mem hget)) rfl
      have hstep : step doc (.createAd s aid now data) =
          { doc with ad_sets := dictSet doc.ad_sets s { st with ads := dictSet st.ads aid { data with id := aid, created_at := now } } } := by
        simp [step, create_ad, hget]
      rw [hstep]
      exact adsOK_dictSet h hst
  | moveAd f t aid =>
    by_cases hft : f = t
    · simpa [step, move_ad, hft] using h
    · cases hf : dictGet doc.ad_sets f with
      | none => simpa [step, move_ad, hft, hf] using h
      | some fs =>
        cases ha : dictGet fs.ads aid with
        | none => simpa [step, move_ad, hft, hf, ha] using h
        | some ad =>
          have hOK' : adsOK (dictSet doc.ad_sets f { fs with ads := dictRemove fs.ads aid }) :=
            adsOK_dictSet h fun q hq => h (f, fs) (dictGet_mem hf) q (mem_dictRemove hq)
          have had : ad.id = aid := h (f, fs) (dictGet_mem hf) (aid, ad) (dictGet_mem ha)
          cases ht : dictGet (dictSet doc.ad_sets f { fs with ads := dictRemove fs.ads aid }) t with
          | none =>
            have hstep : step doc (.moveAd f t aid) =
                { doc with ad_sets := dictSet doc.ad_sets f { fs with ads := dictRemove fs.ads aid } } := by
              simp [step, move_ad, hft, hf, ha, ht]
            rw [hstep]
            exact hOK'
          | some ts =>
            have hts : ∀ q ∈ dictSet ts.ads aid ad, q.2.id = q.1 :=
              adsOK_inner_dictSet (hOK' (t, ts) (dictGet_mem ht)) had
            have hstep : step doc (.moveAd f t aid) =
                { doc with ad_sets := dictSet (dictSet doc.ad_sets f { fs with ads := dictRemove fs.ads aid }) t { ts with ads := dictSet ts.ads aid ad } } := by
              simp [step, move_ad, hft, hf, ha, ht]
            rw [hstep]
            exact adsOK_dictSet hOK' hts
  | deleteAd s aid =>
    cases hget : dictGet doc.ad_sets s with
    | none => simpa [step, delete_ad, hget] using h
    | some st =>
      cases ha : dictGet st.ads aid with
      | none => simpa [step, delete_ad, hget, ha] using h
      | some ad =>
        have hstep : step doc (.deleteAd s aid) =
            { doc with ad_sets := dictSet doc.ad_sets s { st with ads := dictRemove st.ads aid } } := by
          simp [step, delete_ad, hget, ha]
        rw [hstep]
        exact adsOK_dictSet h fun q hq => h (s, st) (dictGet_mem hget) q (mem_dictRemove hq)

/-- C10: in the default seeded document, and after any sequence of
create-ad-set, create-ad, move-ad and delete-ad operations starting from it,
every ad record's `id` field equals the key it is stored under in its ad
set's ads mapping. -/
theorem key_id_agreement (now : String) (ops : List Op) :
    keyIdAgree (runOps (get_default_metadata now) ops) = true := by
  have hall : ∀ (l : List Op) (doc : Doc), keyIdAgree doc = true →
      keyIdAgree (List.foldl step doc l) = true := by
    intro l
    induction l with
    | nil => intro doc h; exact h
    | cons op rest ih => intro doc h; exact ih _ (keyIdAgree_step op h)
  exact hall ops _ rfl

/-! ## Claim C3 (id uniqueness) -/

theorem keysOf_dictSet (l : List (String × α)) (k : String) (v : α) :
    keysOf (dictSet l k v) =
      if (dictGet l k).isSome then keysOf l else keysOf l ++ [k] := by
  induction l with
  | nil => simp [dictSet, dictGet, keysOf]
  | cons p rest ih =>
    obtain ⟨k', v'⟩ := p
    by_cases hk : k' = k
    · subst hk
      simp [dictSet, dictGet, keysOf]
    · cases hr : dictGet rest k with
      | none => simp [dictSet, dictGet, keysOf, hk, hr] at ih ⊢; simp [ih]
      | some w => simp [dictSet, dictGet, keysOf, hk, hr] at ih ⊢; simp [ih]

theorem count_keysOf_dictSet_le (l : List (String × α)) (k : String) (v : α) (x : String) :
    (keysOf (dictSet l k v)).count x ≤ (keysOf l).count x + (if k = x then 1 else 0) := by
  rw [keysOf_dictSet]
  split
  · by_cases hk : k = x <;> simp [hk]
  · by_cases hk : k = x <;> simp [hk, List.count_append, List.count_cons]

theorem count_keysOf_dictRemove_eq {l : List (String × α)} {k : String} {v : α} (x : String)
    (h : dictGet l k = some v) :
    (keysOf (dictRemove l k)).count x + (if k = x then 1 else 0) = (keysOf l).count x := by
  obtain ⟨l₁, l₂, hl, hne⟩ := dictGet_decomp h
  rw [hl, dictRemove_of_decomp hne]
  by_cases hk : k = x <;> simp [keysOf, List.count_append, List.count_cons, hk]
  omega

theorem count_adIds_replace {doc : Doc} {s : String} {st : AdSet} (newAds : List (String × Ad))
    (x : String) (h : dictGet doc.ad_sets s = some st) :
    ∃ a b, (adIds doc).count x = a + (keysOf st.ads).count x + b ∧
      (adIds { doc with ad_sets := dictSet doc.ad_sets s { st with ads := newAds } }).count x =
        a + (keysOf newAds).count x + b := by
  obtain ⟨l₁, l₂, hl, hne⟩ := dictGet_decomp h
  refine ⟨(l₁.flatMap fun p => keysOf p.2.ads).count x,
    (l₂.flatMap fun p => keysOf p.2.ads).count x, ?_, ?_⟩
  · have hsplit : adIds doc =
        (l₁.flatMap fun p => keysOf p.2.ads) ++ keysOf st.ads ++
          (l₂.flatMap fun p => keysOf p.2.ads) := by
      simp only [adIds, hl]
      simp [List.flatMap_append, List.flatMap_cons, List.append_assoc]
    rw [hsplit]
    simp [List.count_append]
    omega
  · have hset : dictSet doc.ad_sets s { st with ads := newAds } =
        l₁ ++ (s, { st with ads := newAds }) :: l₂ := by
      rw [hl, dictSet_of_decomp hne]
    have hsplit : adIds { doc with ad_sets := dictSet doc.ad_sets s { st with ads := newAds } } =
        (l₁.flatMap fun p => keysOf p.2.ads) ++ keysOf newAds ++
          (l₂.flatMap fun p => keysOf p.2.ads) := by
      simp only [adIds, hset]
      simp [List.flatMap_append, List.flatMap_cons, List.append_assoc]
    rw [hsplit]
    simp [List.count_append]
    omega

theorem count_adIds_step (doc : Doc) (op : Op) (x : String) :
    (adIds (step doc op)).count x ≤
      (adIds doc).count x +
        (match op with
         | .createAd _ aid _ _ => if aid = x then 1 else 0
         | _ => 0) := by
  cases op with
  | createAdSet name desc now =>
    by_cases h1 : pyStrip name = ""
    · simp [step, create_ad_set, h1]
    · by_cases h2 : (dictGet doc.ad_sets (pyStrip name)).isSome
      · simp [step, create_ad_set, h1, h2]
      · have hnone : dictGet doc.ad_sets (pyStrip name) = none := by
          cases hx : dictGet doc.ad_sets (pyStrip name)
          · rfl
          · simp [hx] at h2
        have hstep : step doc (.createAdSet name desc now) =
            { doc with ad_sets := doc.ad_sets ++ [(pyStrip name, ⟨pyStrip name, desc, now, []⟩)] } := by
          simp [step, create_ad_set, h1, h2, dictSet_of_none _ hnone]
        rw [hstep]
        simp [adIds, List.flatMap_append, List.count_append, keysOf]
  | createAd s aid now data =>
    cases hget : dictGet doc.ad_sets s with
    | none =>
      simp only [step, create_ad, hget]
      by_cases hax : aid = x <;> simp [hax]
    | some st =>
      obtain ⟨a, b, hA, hB⟩ :=
        count_adIds_replace (dictSet st.ads aid { data with id := aid, created_at := now }) x hget
      have hstep : step doc (.createAd s aid now data) =
          { doc with ad_sets := dictSet doc.ad_sets s { st with ads := dictSet st.ads aid { data with id := aid, created_at := now } } } := by
        simp [step, create_ad, hget]
      rw [hstep, hB, hA]
      have hle := count_keysOf_dictSet_le st.ads aid { data with id := aid, created_at := now } x
      simp only []
      omega
  | moveAd f t aid =>
    by_cases hft : f = t
    · simp [step, move_ad, hft]
    · cases hf : dictGet doc.ad_sets f with
      | none => simp [step, move_ad, hft, hf]
      | some fs =>
        cases ha : dictGet fs.ads aid with
        | none => simp [step, move_ad, hft, hf, ha]
        | some ad =>
          obtain ⟨a, b, hA, hB⟩ := count_adIds_replace (dictRemove fs.ads aid) x hf
          have hrem := count_keysOf_dictRemove_eq x ha
          cases ht : dictGet (dictSet doc.ad_sets f { fs with ads := dictRemove fs.ads aid }) t with
          | none =>
            have hstep : step doc (.moveAd f t aid) =
                { doc with ad_sets := dictSet doc.ad_sets f { fs with ads := dictRemove fs.ads aid } } := by
              simp [step, move_ad, hft, hf, ha, ht]
            rw [hstep, hB, hA]
            simp only []
            omega
          | some ts =>
            obtain ⟨a', b', hA', hB'⟩ :=
              @count_adIds_replace
                { doc with ad_sets := dictSet doc.ad_sets f { fs with ads := dictRemove fs.ads aid } }
                t ts (dictSet ts.ads aid ad) x ht
            have hle := count_keysOf_dictSet_le ts.ads aid ad x
            have hstep : (adIds (step doc (.moveAd f t aid))).count x =
                a' + (keysOf (dictSet ts.ads aid ad)).count x + b' := by
              have hform : step doc (.moveAd f t aid) =
                  { ({ doc with ad_sets := dictSet doc.ad_sets f { fs with ads := dictRemove fs.ads aid } } : Doc) with
                      ad_sets := dictSet (dictSet doc.ad_sets f { fs with ads := dictRemove fs.ads aid }) t { ts with ads := dictSet ts.ads aid ad } } := by
                simp [step, move_ad, hft, hf, ha, ht]
              rw [hform]
              exact hB'
            rw [hstep]
            simp only []
            omega
  | deleteAd s aid =>
    cases hget : dictGet doc.ad_sets s with
    | none => simp [step, delete_ad, hget]
    | some st =>
      cases ha : dictGet st.ads aid with
      | none => simp [step, delete_ad, hget, ha]
      | some ad =>
        obtain ⟨a, b, hA, hB⟩ := count_adIds_replace (dictRemove st.ads aid) x hget
        have hrem := count_keysOf_dictRemove_eq x ha
        have hstep : step doc (.deleteAd s aid) =
            { doc with ad_sets := dictSet doc.ad_sets s { st with ads := dictRemove st.ads aid } } := by
          simp [step, delete_ad, hget, ha]
        rw [hstep, hB, hA]
        simp only []
        omega

theorem nodup_adIds_step {doc : Doc} {op : Op}
    (h1 : (adIds doc).Nodup)
    (h2 : match op with
          | .createAd _ aid _ _ => (adIds doc).contains aid = false
          | _ => True) :
    (adIds (step doc op)).Nodup := by
  rw [List.nodup_iff_count_le_one] at h1 ⊢
  intro x
  have hc := count_adIds_step doc op x
  cases op with
  | createAd s aid now data =>
    dsimp only at hc h2
    by_cases hax : aid = x
    · subst hax
      have hmem : aid ∉ adIds doc := by
        intro hm
        rw [contains_iff.mpr hm] at h2
        simp at h2
      have h0 : (adIds doc).count aid = 0 := List.count_eq_zero.mpr hmem
      rw [if_pos rfl] at hc
      omega
    · rw [if_neg hax] at hc
      have := h1 x
      omega
  | createAdSet name desc now =>
    have := h1 x
    dsimp only at hc
    omega
  | moveAd f t aid =>
    have := h1 x
    dsimp only at hc
    omega
  | deleteAd s aid =>
    have := h1 x
    dsimp only at hc
    omega

/-- C3 counterexample: the default document has pairwise-distinct ad ids, yet
a single `create_ad` whose generated 8-hex-digit id happens to be "demo003"
(the source draws the id at random and never checks for collisions) produces
a document in which two ads share the id "demo003". -/
theorem create_ad_id_collision_cex :
    (adIds (get_default_metadata "t")).Nodup ∧
    ¬ (adIds (runOps (get_default_metadata "t")
        [.createAd "Social Media Ads" "demo003" "t" adCross])).Nodup := by
  constructor
  · decide
  · decide

/-- C3 amended: starting from a document with pairwise-distinct ad ids,
id uniqueness is preserved by any sequence of create-ad-set, create-ad,
move-ad and delete-ad operations provided every id handed to a create-ad is
fresh — not an ad id of the document at that point.  The source draws
`uuid4().hex[:8]` without any collision check, so this freshness is exactly
the (overwhelmingly probable) success of the random draw, not a code
guarantee. -/
theorem unique_ids_preserved (doc : Doc) (ops : List Op)
    (h1 : (adIds doc).Nodup) (h2 : freshIdsB doc ops = true) :
    (adIds (runOps doc ops)).Nodup := by
  induction ops generalizing doc with
  | nil => simpa [runOps] using h1
  | cons op rest ih =>
    have hrun : runOps doc (op :: rest) = runOps (step doc op) rest := rfl
    rw [hrun]
    cases op with
    | createAd s aid now data =>
      simp only [freshIdsB, Bool.and_eq_true, Bool.not_eq_true'] at h2
      exact ih (step doc (.createAd s aid now data))
        (nodup_adIds_step h1 h2.1) h2.2
    | createAdSet name desc now =>
      simp only [freshIdsB, Bool.and_eq_true] at h2
      exact ih _ (nodup_adIds_step h1 trivial) h2.2
    | moveAd f t aid =>
      simp only [freshIdsB, Bool.and_eq_true] at h2
      exact ih _ (nodup_adIds_step h1 trivial) h2.2
    | deleteAd s aid =>
      simp only [freshIdsB, Bool.and_eq_true] at h2
      exact ih _ (nodup_adIds_step h1 trivial) h2.2

/-- C3 witness: creating an ad under "Social Media Ads" with the fresh id
"fresh123" on the default document keeps all ad ids pairwise distinct. -/
theorem unique_ids_preserved_witness :
    (adIds (runOps (get_default_metadata "t")
      [.createAd "Social Media Ads" "fresh123" "t" adCross])).Nodup :=
  unique_ids_preserved (get_default_metadata "t")
    [.createAd "Social Media Ads" "fresh123" "t" adCross] (by decide) (by decide)

/-! ## Claim C7 (CSV round trip) -/

/-- importedAd ad newId now: the ad record an export/import round trip
produces for `ad` — the row carries the ad's fields (tags joined by the bar
delimiter), the import re-parses them and `create_ad` stamps the drawn id and
timestamp. -/
def importedAd (ad : Ad) (newId now : String) : Ad :=
  { id := newId
    name := ad.name
    description := ad.description
    tags := splitTags (pyJoin "|" ad.tags)
    url := ad.url
    schedule_date := ad.schedule_date
    created_at := now
    file_path := ad.file_path
    mime_type := ad.mime_type }

/-- newAdsOf ads ids now: the ads mapping the import builds for one set, one
entry per exported ad, keyed by the drawn ids in order. -/
def newAdsOf (ads : List (String × Ad)) (ids : List String) (now : String) :
    List (String × Ad) :=
  List.zipWith (fun (q : String × Ad) (i : String) => (i, importedAd q.2 i now)) ads ids

/-- importResultSets now sets ids: the ad-set list the merge import builds
from the rows of `sets`, consuming `ids` chunk by chunk. -/
def importResultSets (now : String) : List (String × AdSet) → List String → List (String × AdSet)
  | [], _ => []
  | p :: rest, ids =>
    (p.1, ⟨p.1, p.2.description, now, newAdsOf p.2.ads (ids.take p.2.ads.length) now⟩)
      :: importResultSets now rest (ids.drop p.2.ads.length)

/-- docShape doc: the ad set names with, per set, the contained ads' names
and tag lists in order — the data the round-trip claim compares. -/
def docShape (doc : Doc) : List (String × List (String × List String)) :=
  doc.ad_sets.map fun p => (p.1, p.2.ads.map fun q => (q.2.name, q.2.tags))

/-- tagClean t: t is non-empty, unchanged by strip, and free of the bar
delimiter of the tabular tag serialization. -/
def tagClean (t : String) : Bool :=
  (!(t == "")) && (pyStrip t == t) && (!(t.toList.contains '|'))

theorem strToList_append (s t : String) : (s ++ t).toList = s.toList ++ t.toList :=
  String.data_append s t

theorem strMk_toList (s : String) : String.mk s.toList = s := rfl

theorem pySplitChar_ne_nil (sep : Char) (l : List Char) : pySplitChar sep l ≠ [] := by
  cases l with
  | nil => simp [pySplitChar]
  | cons c rest =>
    simp only [pySplitChar]
    cases h : pySplitChar sep rest
    · simp
    · by_cases hc : c = sep <;> simp [hc]

theorem pySplitChar_no_sep {sep : Char} {l : List Char} (h : sep ∉ l) :
    pySplitChar sep l = [l] := by
  induction l with
  | nil => rfl
  | cons c rest ih =>
    have hc : c ≠ sep := fun hh => h (by simp [hh])
    have hr : sep ∉ rest := fun hh => h (by simp [hh])
    simp [pySplitChar, ih hr, hc]

theorem pySplitChar_append {sep : Char} {l₁ l₂ : List Char} (h : sep ∉ l₁) :
    pySplitChar sep (l₁ ++ sep :: l₂) = l₁ :: pySplitChar sep l₂ := by
  induction l₁ with
  | nil =>
    simp only [List.nil_append, pySplitChar]
    cases hs : pySplitChar sep l₂ with
    | nil => exact absurd hs (pySplitChar_ne_nil sep l₂)
    | cons a as => simp
  | cons c rest ih =>
    have hc : c ≠ sep := fun hh => h (by simp [hh])
    have hr : sep ∉ rest := fun hh => h (by simp [hh])
    simp only [List.cons_append, pySplitChar, List.append_eq]
    rw [ih hr]
    simp [hc]

theorem contains_iff' {α : Type} [BEq α] [LawfulBEq α] {l : List α} {a : α} :
    l.contains a = true ↔ a ∈ l := by
  simp

theorem tagClean_out {t : String} (h : tagClean t = true) :
    t ≠ "" ∧ pyStrip t = t ∧ '|' ∉ t.toList := by
  simp only [tagClean, Bool.and_eq_true, Bool.not_eq_true', beq_iff_eq, beq_eq_false_iff_ne,
    ne_eq] at h
  obtain ⟨⟨h1, h2⟩, h3⟩ := h
  refine ⟨h1, h2, ?_⟩
  intro hmem
  rw [contains_iff'.mpr hmem] at h3
  simp at h3

theorem splitTags_join (ts : List String) (h : ∀ t ∈ ts, tagClean t = true) :
    splitTags (pyJoin "|" ts) = ts := by
  induction ts with
  | nil => decide
  | cons t rest ih =>
    obtain ⟨hne, hstrip, hbar⟩ := tagClean_out (h t (by simp))
    cases rest with
    | nil =>
      show splitTags (pyJoin "|" [t]) = [t]
      have hj : pyJoin "|" [t] = t := rfl
      rw [hj, splitTags, pySplit, pySplitChar_no_sep hbar]
      simp [strMk_toList, hstrip, hne]
    | cons t2 rest2 =>
      have hj : pyJoin "|" (t :: t2 :: rest2) = t ++ "|" ++ pyJoin "|" (t2 :: rest2) := rfl
      have hlist : (t ++ "|" ++ pyJoin "|" (t2 :: rest2)).toList =
          t.toList ++ '|' :: (pyJoin "|" (t2 :: rest2)).toList := by
        rw [strToList_append, strToList_append]
        simp
      rw [splitTags, pySplit, hj, hlist, pySplitChar_append hbar]
      have hrest : splitTags (pyJoin "|" (t2 :: rest2)) = t2 :: rest2 :=
        ih fun t' ht' => h t' (by simp [ht'])
      rw [splitTags, pySplit] at hrest
      simp only [List.map_cons, List.filter_cons, strMk_toList, hstrip]
      rw [hrest]
      simp [hne]

theorem dictGet_eq_none_of_not_mem {l : List (String × α)} {k : String}
    (h : k ∉ keysOf l) : dictGet l k = none := by
  cases hg : dictGet l k with
  | none => rfl
  | some v => exact absurd (List.mem_map_of_mem Prod.fst (dictGet_mem hg)) h

theorem import_rows_append (now : String) (doc : Doc) (a b : List (Row × String)) :
    import_rows now doc (a ++ b) = import_rows now (import_rows now doc a) b := by
  induction a generalizing doc with
  | nil => rfl
  | cons x rest ih =>
    obtain ⟨r, i⟩ := x
    simp only [List.cons_append, import_rows]
    exact ih _

theorem newAdsOf_cons (q : String × Ad) (qs : List (String × Ad)) (i : String)
    (is : List String) (now : String) :
    newAdsOf (q :: qs) (i :: is) now = (i, importedAd q.2 i now) :: newAdsOf qs is now := by
  simp [newAdsOf]

theorem import_rows_into_last (now : String) (origCamp : Campaign) (camp : Campaign)
    (base : List (String × AdSet)) (s sd0 sd sc : String) :
    ∀ (ads : List (String × Ad)) (ids : List String) (done : List (String × Ad)),
    dictGet base s = none →
    camp.name = origCamp.name → camp.objective = origCamp.objective →
    ads.length = ids.length →
    (∀ i ∈ ids, i ∉ keysOf done) →
    ids.Nodup →
    import_rows now ⟨camp, base ++ [(s, ⟨s, sd, now, done⟩)]⟩
        ((ads.map fun q => rowOf origCamp s sd0 sc q.1 q.2).zip ids) =
      ⟨camp, base ++ [(s, ⟨s, sd, now, done ++ newAdsOf ads ids now⟩)]⟩ := by
  intro ads
  induction ads with
  | nil =>
    intro ids done hb hcn hco hlen hfresh hnodup
    cases ids with
    | nil => simp [import_rows, newAdsOf]
    | cons i is => simp at hlen
  | cons q qs ih =>
    intro ids done hb hcn hco hlen hfresh hnodup
    cases ids with
    | nil => simp at hlen
    | cons i is =>
      have hne1 : ∀ p ∈ base, p.1 ≠ s := dictGet_none_iff.mp hb
      have hg : dictGet (base ++ [(s, (⟨s, sd, now, done⟩ : AdSet))]) s =
          some ⟨s, sd, now, done⟩ := dictGet_of_decomp hne1
      have hins : dictSet done i (importedAd q.2 i now) = done ++ [(i, importedAd q.2 i now)] :=
        dictSet_of_none _ (dictGet_eq_none_of_not_mem (hfresh i (by simp)))
      have hcamp : ({ camp with name := origCamp.name, objective := origCamp.objective } :
          Campaign) = camp := by
        rw [← hcn, ← hco]
      have hrow : import_row ⟨camp, base ++ [(s, (⟨s, sd, now, done⟩ : AdSet))]⟩
          (rowOf origCamp s sd0 sc q.1 q.2) i now =
          ⟨camp, base ++ [(s, (⟨s, sd, now, done ++ [(i, importedAd q.2 i now)]⟩ : AdSet))]⟩ := by
        simp only [import_row, rowOf, hcamp, hg, Option.isSome_some, if_true, create_ad]
        simp only [importedAd] at hins
        simp [hins, dictSet_of_decomp hne1, importedAd]
      have hstep : import_rows now ⟨camp, base ++ [(s, (⟨s, sd, now, done⟩ : AdSet))]⟩
          (((q :: qs).map fun q' => rowOf origCamp s sd0 sc q'.1 q'.2).zip (i :: is)) =
          import_rows now
            ⟨camp, base ++ [(s, (⟨s, sd, now, done ++ [(i, importedAd q.2 i now)]⟩ : AdSet))]⟩
            ((qs.map fun q' => rowOf origCamp s sd0 sc q'.1 q'.2).zip is) := by
        simp only [List.map_cons, List.zip_cons_cons, import_rows, hrow]
        rfl
      rw [hstep]
      have hfresh' : ∀ i' ∈ is, i' ∉ keysOf (done ++ [(i, importedAd q.2 i now)]) := by
        intro i' hi' hmem
        simp only [keysOf, List.map_append, List.mem_append, List.map_cons, List.map_nil,
          List.mem_singleton] at hmem
        rcases hmem with hmem | hmem
        · exact hfresh i' (by simp [hi']) hmem
        · rcases List.nodup_cons.mp hnodup with ⟨hni, _⟩
          exact hni (hmem ▸ hi')
      have hres := ih is (done ++ [(i, importedAd q.2 i now)]) hb hcn hco
        (by simpa using hlen) hfresh' (List.nodup_cons.mp hnodup).2
      rw [hres, newAdsOf_cons]
      simp [List.append_assoc]

theorem import_rows_new_set (now : String) (origCamp camp : Campaign)
    (base : List (String × AdSet)) (s sd sc : String)
    (ads : List (String × Ad)) (ids : List String)
    (hb : dictGet base s = none)
    (hlen : ads.length = ids.length)
    (hnodup : ids.Nodup)
    (hne : ads ≠ []) :
    import_rows now ⟨camp, base⟩ ((ads.map fun q => rowOf origCamp s sd sc q.1 q.2).zip ids) =
      ⟨{ camp with name := origCamp.name, objective := origCamp.objective },
        base ++ [(s, ⟨s, sd, now, newAdsOf ads ids now⟩)]⟩ := by
  cases ads with
  | nil => exact absurd rfl hne
  | cons q qs =>
    cases ids with
    | nil => simp at hlen
    | cons i is =>
      have hrow : import_row ⟨camp, base⟩ (rowOf origCamp s sd sc q.1 q.2) i now =
          ⟨{ camp with name := origCamp.name, objective := origCamp.objective },
            base ++ [(s, (⟨s, sd, now, [(i, importedAd q.2 i now)]⟩ : AdSet))]⟩ := by
        simp only [import_row, rowOf, hb, Option.isSome_none, Bool.false_eq_true, if_false,
          create_ad, dictSet_of_none _ hb]
        have hg2 : dictGet (base ++ [(s, (⟨s, sd, now, []⟩ : AdSet))]) s =
            some ⟨s, sd, now, []⟩ := dictGet_of_decomp (dictGet_none_iff.mp hb)
        simp [hg2, dictSet_of_decomp (dictGet_none_iff.mp hb), dictSet, importedAd]
      have hstep : import_rows now ⟨camp, base⟩
          (((q :: qs).map fun q' => rowOf origCamp s sd sc q'.1 q'.2).zip (i :: is)) =
          import_rows now
            ⟨{ camp with name := origCamp.name, objective := origCamp.objective },
              base ++ [(s, (⟨s, sd, now, [(i, importedAd q.2 i now)]⟩ : AdSet))]⟩
            ((qs.map fun q' => rowOf origCamp s sd sc q'.1 q'.2).zip is) := by
        simp only [List.map_cons, List.zip_cons_cons, import_rows, hrow]
        rfl
      rw [hstep]
      have hfresh : ∀ i' ∈ is, i' ∉ keysOf [(i, importedAd q.2 i now)] := by
        intro i' hi' hmem
        simp only [keysOf, List.map_cons, List.map_nil, List.mem_singleton] at hmem
        rcases List.nodup_cons.mp hnodup with ⟨hni, _⟩
        exact hni (hmem ▸ hi')
      have hres := import_rows_into_last now origCamp
        { camp with name := origCamp.name, objective := origCamp.objective } base s sd sd sc
        qs is [(i, importedAd q.2 i now)] hb rfl rfl (by simpa using hlen) hfresh
        (List.nodup_cons.mp hnodup).2
      rw [hres, newAdsOf_cons]
      rfl

theorem import_rows_all (now : String) (origCamp : Campaign) :
    ∀ (sets : List (String × AdSet)) (ids : List String) (camp : Campaign)
      (base : List (String × AdSet)),
    (∀ p ∈ sets, dictGet base p.1 = none) →
    (keysOf sets).Nodup →
    (∀ p ∈ sets, p.2.ads ≠ []) →
    ids.length = (sets.flatMap fun p => p.2.ads).length →
    ids.Nodup →
    ∃ camp', import_rows now ⟨camp, base⟩
        ((sets.flatMap fun p => p.2.ads.map fun q =>
          rowOf origCamp p.1 p.2.description p.2.created_at q.1 q.2).zip ids) =
      ⟨camp', base ++ importResultSets now sets ids⟩ := by
  intro sets
  induction sets with
  | nil =>
    intro ids camp base _ _ _ _ _
    exact ⟨camp, by simp [import_rows, importResultSets]⟩
  | cons p rest ih =>
    intro ids camp base habs hnames hne hlen hnodup
    have hlen2 : ids.length = p.2.ads.length + (rest.flatMap fun r => r.2.ads).length := by
      simpa [List.flatMap_cons, List.length_append] using hlen
    have hn_le : p.2.ads.length ≤ ids.length := by omega
    have htake_len : (ids.take p.2.ads.length).length = p.2.ads.length := by
      rw [List.length_take]
      omega
    have hz : ((p.2.ads.map fun q => rowOf origCamp p.1 p.2.description p.2.created_at q.1 q.2) ++
          (rest.flatMap fun r => r.2.ads.map fun q =>
            rowOf origCamp r.1 r.2.description r.2.created_at q.1 q.2)).zip ids =
        (p.2.ads.map fun q => rowOf origCamp p.1 p.2.description p.2.created_at q.1 q.2).zip
          (ids.take p.2.ads.length) ++
        (rest.flatMap fun r => r.2.ads.map fun q =>
          rowOf origCamp r.1 r.2.description r.2.created_at q.1 q.2).zip
          (ids.drop p.2.ads.length) := by
      conv_lhs => rw [← List.take_append_drop p.2.ads.length ids]
      exact List.zip_append (by simp [htake_len])
    have hfirst := import_rows_new_set now origCamp camp base p.1 p.2.description p.2.created_at
      p.2.ads (ids.take p.2.ads.length) (habs p (by simp)) htake_len.symm
      (List.Nodup.sublist (List.take_sublist p.2.ads.length ids) hnodup) (hne p (by simp))
    have hp_ne : ∀ r ∈ rest, p.1 ≠ r.1 := by
      intro r hr
      have hkeys : (keysOf (p :: rest)).Nodup := hnames
      simp only [keysOf, List.map_cons, List.nodup_cons] at hkeys
      intro hpr
      exact hkeys.1 (hpr ▸ List.mem_map_of_mem Prod.fst hr)
    have habs' : ∀ r ∈ rest,
        dictGet (base ++ [(p.1, (⟨p.1, p.2.description, now,
          newAdsOf p.2.ads (ids.take p.2.ads.length) now⟩ : AdSet))]) r.1 = none := by
      intro r hr
      rw [dictGet_append (habs r (by simp [hr]))]
      simp [dictGet, hp_ne r hr]
    have hnames' : (keysOf rest).Nodup := by
      simp only [keysOf, List.map_cons, List.nodup_cons] at hnames
      exact hnames.2
    have hlen' : (ids.drop p.2.ads.length).length = (rest.flatMap fun r => r.2.ads).length := by
      rw [List.length_drop]
      omega
    obtain ⟨camp', hrest⟩ := ih (ids.drop p.2.ads.length)
      { camp with name := origCamp.name, objective := origCamp.objective }
      (base ++ [(p.1, ⟨p.1, p.2.description, now,
        newAdsOf p.2.ads (ids.take p.2.ads.length) now⟩)])
      habs' hnames' (fun r hr => hne r (by simp [hr])) hlen'
      (List.Nodup.sublist (List.drop_sublist p.2.ads.length ids) hnodup)
    refine ⟨camp', ?_⟩
    rw [List.flatMap_cons, hz, import_rows_append, hfirst, hrest, importResultSets]
    simp [List.append_assoc]

theorem newAdsOf_shape (now : String) :
    ∀ (ads : List (String × Ad)) (ids : List String),
    ads.length = ids.length →
    (∀ q ∈ ads, ∀ t ∈ q.2.tags, tagClean t = true) →
    (newAdsOf ads ids now).map (fun q => (q.2.name, q.2.tags)) =
      ads.map fun q => (q.2.name, q.2.tags) := by
  intro ads
  induction ads with
  | nil => intro ids _ _; simp [newAdsOf]
  | cons q qs ih =>
    intro ids hlen htags
    cases ids with
    | nil => simp at hlen
    | cons i is =>
      rw [newAdsOf_cons]
      simp only [List.map_cons]
      have htags1 : splitTags (pyJoin "|" q.2.tags) = q.2.tags :=
        splitTags_join _ (htags q (by simp))
      congr 1
      · simp [importedAd, htags1]
      · exact ih is (by simpa using hlen) fun q' hq' => htags q' (by simp [hq'])

theorem export_rows_length (doc : Doc) :
    (export_rows doc).length = (doc.ad_sets.flatMap fun p => p.2.ads).length := by
  rw [export_rows, List.length_flatMap, List.length_flatMap]
  congr 1
  exact List.map_congr_left fun p _ => by simp [Function.comp]

theorem importResultSets_shape (now : String) :
    ∀ (sets : List (String × AdSet)) (ids : List String),
    ids.length = (sets.flatMap fun p => p.2.ads).length →
    (∀ p ∈ sets, ∀ q ∈ p.2.ads, ∀ t ∈ q.2.tags, tagClean t = true) →
    (importResultSets now sets ids).map
        (fun p => (p.1, p.2.ads.map fun q => (q.2.name, q.2.tags))) =
      sets.map fun p => (p.1, p.2.ads.map fun q => (q.2.name, q.2.tags)) := by
  intro sets
  induction sets with
  | nil => intro ids _ _; rfl
  | cons p rest ih =>
    intro ids hlen htags
    have hlen2 : ids.length = p.2.ads.length + (rest.flatMap fun r => r.2.ads).length := by
      simpa [List.flatMap_cons, List.length_append] using hlen
    have htake_len : (ids.take p.2.ads.length).length = p.2.ads.length := by
      rw [List.length_take]
      omega
    simp only [importResultSets, List.map_cons]
    congr 1
    · have hn := newAdsOf_shape now p.2.ads (ids.take p.2.ads.length) htake_len.symm
        (htags p (by simp))
      simp [hn]
    · exact ih (ids.drop p.2.ads.length) (by rw [List.length_drop]; omega)
        fun r hr => htags r (by simp [hr])

theorem shape_counts (doc : Doc) :
    (docShape doc).map (fun p => (p.1, p.2.length)) =
      doc.ad_sets.map fun p => (p.1, p.2.ads.length) := by
  simp only [docShape, List.map_map]
  exact List.map_congr_left fun p _ => by simp

theorem adIds_length_shape (doc : Doc) :
    (adIds doc).length = ((docShape doc).map fun p => p.2.length).sum := by
  simp only [adIds, docShape, List.length_flatMap, List.map_map]
  congr 1
  exact List.map_congr_left fun p _ => by simp [keysOf, Function.comp]

/-- emptySetDoc: a document with one ad set "S" holding no ads. -/
def emptySetDoc : Doc := ⟨⟨"C", "O", "cc"⟩, [("S", ⟨"S", "sd", "sc", []⟩)]⟩

/-- C7 counterexample: an ad set with no ads contributes no rows to the
tabular export, so merge-importing the export into a fresh empty document
loses it entirely: the round-tripped document has no ad set named "S" (and
no ad sets at all), while the original has exactly one. -/
theorem csv_round_trip_drops_empty_set :
    keysOf (import_rows "t" freshEmptyDoc ((export_rows emptySetDoc).zip ["n1"])).ad_sets = [] ∧
    keysOf emptySetDoc.ad_sets = ["S"] := by
  constructor
  · decide
  · decide

/-- C7 amended: for documents whose every ad set is non-empty, whose set
names are pairwise distinct, and whose every tag is non-empty, strip-stable
and free of the bar delimiter, tabular export followed by merge import into a
fresh empty document with pairwise-distinct drawn ids reproduces the ad set
names in order, the ad names and tag lists per ad in order (hence the tag
sets), and the per-set and total ad counts.  (An empty ad set produces no
rows and is dropped; a tag containing the delimiter would be split apart —
the stated conditions are what the delimiter translation forces.) -/
theorem csv_round_trip (doc : Doc) (ids : List String) (now : String)
    (h1 : ∀ p ∈ doc.ad_sets, p.2.ads ≠ [])
    (h2 : (keysOf doc.ad_sets).Nodup)
    (h3 : ∀ p ∈ doc.ad_sets, ∀ q ∈ p.2.ads, ∀ t ∈ q.2.tags, tagClean t = true)
    (h4 : ids.length = (export_rows doc).length)
    (h5 : ids.Nodup) :
    docShape (import_rows now freshEmptyDoc ((export_rows doc).zip ids)) = docShape doc ∧
    (import_rows now freshEmptyDoc ((export_rows doc).zip ids)).ad_sets.map
        (fun p => (p.1, p.2.ads.length)) =
      doc.ad_sets.map (fun p => (p.1, p.2.ads.length)) ∧
    (adIds (import_rows now freshEmptyDoc ((export_rows doc).zip ids))).length =
      (adIds doc).length := by
  obtain ⟨camp', heq⟩ := import_rows_all now doc.campaign doc.ad_sets ids
    freshEmptyDoc.campaign [] (fun p _ => rfl) h2 h1 (by rw [h4, export_rows_length]) h5
  have him : import_rows now freshEmptyDoc ((export_rows doc).zip ids) =
      ⟨camp', importResultSets now doc.ad_sets ids⟩ := heq
  have hshape : docShape (import_rows now freshEmptyDoc ((export_rows doc).zip ids)) =
      docShape doc := by
    rw [him]
    have hds : docShape (⟨camp', importResultSets now doc.ad_sets ids⟩ : Doc) =
        (importResultSets now doc.ad_sets ids).map
          (fun p => (p.1, p.2.ads.map fun q => (q.2.name, q.2.tags))) := rfl
    rw [hds, importResultSets_shape now doc.ad_sets ids (by rw [h4, export_rows_length]) h3]
    rfl
  refine ⟨hshape, ?_, ?_⟩
  · rw [← shape_counts (import_rows now freshEmptyDoc ((export_rows doc).zip ids)),
      ← shape_counts doc, hshape]
  · rw [adIds_length_shape, adIds_length_shape, hshape]

/-- roundTripDoc: a one-set, one-ad document with two clean tags. -/
def roundTripDoc : Doc :=
  ⟨⟨"C", "O", "cc"⟩,
    [("S", ⟨"S", "sd", "sc",
      [("i0", ⟨"i0", "Banner", "d", ["a", "b"], "u", none, "t0", "", "m"⟩)]⟩)]⟩

/-- C7 witness: the round trip on roundTripDoc with the single drawn id "n1"
reproduces the shape and counts. -/
theorem csv_round_trip_witness :
    docShape (import_rows "t" freshEmptyDoc ((export_rows roundTripDoc).zip ["n1"])) =
      docShape roundTripDoc ∧
    (import_rows "t" freshEmptyDoc ((export_rows roundTripDoc).zip ["n1"])).ad_sets.map
        (fun p => (p.1, p.2.ads.length)) =
      roundTripDoc.ad_sets.map (fun p => (p.1, p.2.ads.length)) ∧
    (adIds (import_rows "t" freshEmptyDoc ((export_rows roundTripDoc).zip ["n1"]))).length =
      (adIds roundTripDoc).length :=
  csv_round_trip roundTripDoc ["n1"] "t" (by decide) (by decide) (by decide) (by decide)
    (by decide)
